import Mathlib

/-!
Verification of the Euler-method application (`app.py`).

The numerical core of the repository is embedded over `ℚ`: the Python
code computes with IEEE doubles, which we model as exact rationals, and
`math.exp` — the one transcendental library call — is abstracted as an
explicit function parameter `expF : ℚ → ℚ`.  Python's `int()` conversion
(truncation toward zero) and fixed-precision string formatting are
modelled concretely.
-/

/-- Python's `int()` applied to a real quantity: truncation toward zero. -/
def pyInt (q : ℚ) : ℤ := if 0 ≤ q then ⌊q⌋ else ⌈q⌉

/-- The step count of `euler_method` (source line 22):
`n_steps = int((x_final - x0) / h)`, clipped to a natural number because
Python's `range` over a negative count produces no iterations. -/
def n_steps (x0 x_final h : ℚ) : ℕ := (pyInt ((x_final - x0) / h)).toNat

/-- The loop body of `euler_method` (source lines 34–49), run for the
given number of remaining iterations starting from the current point
`(xc, yc)`.  Each iteration computes `y_next = y_current + h*k*y_current`
and `x_next = x_current + h`, appends both, and appends the analytical
value `y0 * exp (k * (x_next - x0))` computed from the closed form. -/
def eulerSteps (expF : ℚ → ℚ) (k x0 y0 h : ℚ) :
    ℕ → ℚ → ℚ → List ℚ × List ℚ × List ℚ
  | 0, _, _ => ([], [], [])
  | n + 1, xc, yc =>
    let y_next := yc + h * k * yc
    let x_next := xc + h
    let rest := eulerSteps expF k x0 y0 h n x_next y_next
    (x_next :: rest.1, y_next :: rest.2.1,
      (y0 * expF (k * (x_next - x0))) :: rest.2.2)

/-- `euler_method(k, x0, y0, x_final, h)` (source lines 7–51): returns the
triple of lists `(x_values, y_euler, y_analytical)`, each beginning with
the initial point and extended by `n_steps` loop iterations. -/
def euler_method (expF : ℚ → ℚ) (k x0 y0 x_final h : ℚ) :
    List ℚ × List ℚ × List ℚ :=
  let n := n_steps x0 x_final h
  let rest := eulerSteps expF k x0 y0 h n x0 y0
  (x0 :: rest.1, y0 :: rest.2.1, y0 :: rest.2.2)

/-- The `x_values` list returned by `euler_method`. -/
def euler_x (expF : ℚ → ℚ) (k x0 y0 x_final h : ℚ) : List ℚ :=
  (euler_method expF k x0 y0 x_final h).1

/-- The `y_euler` list returned by `euler_method`. -/
def euler_yE (expF : ℚ → ℚ) (k x0 y0 x_final h : ℚ) : List ℚ :=
  (euler_method expF k x0 y0 x_final h).2.1

/-- The `y_analytical` list returned by `euler_method`. -/
def euler_yA (expF : ℚ → ℚ) (k x0 y0 x_final h : ℚ) : List ℚ :=
  (euler_method expF k x0 y0 x_final h).2.2

/-! ### Structure lemmas for the integrator loop -/

theorem eulerSteps_length (expF : ℚ → ℚ) (k x0 y0 h : ℚ) :
    ∀ (n : ℕ) (xc yc : ℚ),
      (eulerSteps expF k x0 y0 h n xc yc).1.length = n ∧
      (eulerSteps expF k x0 y0 h n xc yc).2.1.length = n ∧
      (eulerSteps expF k x0 y0 h n xc yc).2.2.length = n := by
  intro n
  induction n with
  | zero => intro xc yc; simp [eulerSteps]
  | succ m ih =>
    intro xc yc
    simpa [eulerSteps] using ih (xc + h) (yc + h * k * yc)

theorem eulerSteps_getD (expF : ℚ → ℚ) (k x0 y0 h : ℚ) :
    ∀ (n : ℕ) (xc yc : ℚ) (i : ℕ), i < n →
      (eulerSteps expF k x0 y0 h n xc yc).1.getD i 0 = xc + (i + 1 : ℕ) * h ∧
      (eulerSteps expF k x0 y0 h n xc yc).2.1.getD i 0 = yc * (1 + h * k) ^ (i + 1) ∧
      (eulerSteps expF k x0 y0 h n xc yc).2.2.getD i 0 =
        y0 * expF (k * (xc + (i + 1 : ℕ) * h - x0)) := by
  intro n
  induction n with
  | zero => intro xc yc i hi; omega
  | succ m ih =>
    intro xc yc i hi
    match i with
    | 0 =>
      refine ⟨by simp [eulerSteps], ?_, by simp [eulerSteps]⟩
      simp [eulerSteps]
      ring
    | j + 1 =>
      have hj : j < m := by omega
      obtain ⟨h1, h2, h3⟩ := ih (xc + h) (yc + h * k * yc) j hj
      refine ⟨?_, ?_, ?_⟩
      · simp only [eulerSteps, List.getD_cons_succ]
        rw [h1]
        push_cast
        ring
      · simp only [eulerSteps, List.getD_cons_succ]
        rw [h2]
        ring_nf
      · simp only [eulerSteps, List.getD_cons_succ]
        rw [h3]
        push_cast
        ring_nf

theorem euler_x_length (expF : ℚ → ℚ) (k x0 y0 x_final h : ℚ) :
    (euler_x expF k x0 y0 x_final h).length = n_steps x0 x_final h + 1 := by
  simp [euler_x, euler_method, (eulerSteps_length expF k x0 y0 h _ x0 y0).1]

theorem euler_yE_length (expF : ℚ → ℚ) (k x0 y0 x_final h : ℚ) :
    (euler_yE expF k x0 y0 x_final h).length = n_steps x0 x_final h + 1 := by
  simp [euler_yE, euler_method, (eulerSteps_length expF k x0 y0 h _ x0 y0).2.1]

theorem euler_yA_length (expF : ℚ → ℚ) (k x0 y0 x_final h : ℚ) :
    (euler_yA expF k x0 y0 x_final h).length = n_steps x0 x_final h + 1 := by
  simp [euler_yA, euler_method, (eulerSteps_length expF k x0 y0 h _ x0 y0).2.2]

theorem euler_x_getD (expF : ℚ → ℚ) (k x0 y0 x_final h : ℚ) (i : ℕ)
    (hi : i ≤ n_steps x0 x_final h) :
    (euler_x expF k x0 y0 x_final h).getD i 0 = x0 + (i : ℕ) * h := by
  match i with
  | 0 => simp [euler_x, euler_method]
  | j + 1 =>
    have hj : j < n_steps x0 x_final h := by omega
    have := (eulerSteps_getD expF k x0 y0 h (n_steps x0 x_final h) x0 y0 j hj).1
    simpa [euler_x, euler_method] using this

theorem euler_yE_getD (expF : ℚ → ℚ) (k x0 y0 x_final h : ℚ) (i : ℕ)
    (hi : i ≤ n_steps x0 x_final h) :
    (euler_yE expF k x0 y0 x_final h).getD i 0 = y0 * (1 + h * k) ^ i := by
  match i with
  | 0 => simp [euler_yE, euler_method]
  | j + 1 =>
    have hj : j < n_steps x0 x_final h := by omega
    have := (eulerSteps_getD expF k x0 y0 h (n_steps x0 x_final h) x0 y0 j hj).2.1
    simpa [euler_yE, euler_method] using this

theorem euler_yA_getD (expF : ℚ → ℚ) (k x0 y0 x_final h : ℚ) (i : ℕ)
    (hi0 : 0 < i) (hi : i ≤ n_steps x0 x_final h) :
    (euler_yA expF k x0 y0 x_final h).getD i 0 = y0 * expF (k * ((i : ℕ) * h)) := by
  match i with
  | j + 1 =>
    have hj : j < n_steps x0 x_final h := by omega
    have := (eulerSteps_getD expF k x0 y0 h (n_steps x0 x_final h) x0 y0 j hj).2.2
    simp only [euler_yA, euler_method, List.getD_cons_succ] at this ⊢
    rw [this]
    ring_nf

theorem euler_yA_getD_zero (expF : ℚ → ℚ) (k x0 y0 x_final h : ℚ) :
    (euler_yA expF k x0 y0 x_final h).getD 0 0 = y0 := by
  simp [euler_yA, euler_method]

/-! ### String formatting (Python `f"{v:.4f}"`, `f"{v:.6f}"`, `str(v)`) -/

/-- Round a rational to the nearest integer with ties to even, the
rounding used by Python's fixed-precision `format`. -/
def roundHalfEven (q : ℚ) : ℤ :=
  let f := ⌊q⌋
  let r := q - (f : ℚ)
  if r < 1/2 then f
  else if 1/2 < r then f + 1
  else if f % 2 = 0 then f else f + 1

/-- Zero-pad the decimal rendering of a natural number to `w` digits. -/
def padNat (w : ℕ) (m : ℕ) : String :=
  let s := toString m
  String.mk (List.replicate (w - s.length) '0') ++ s

/-- Python's fixed-precision float formatting `f"{q:.pf}"`, under the
floats-as-rationals embedding: round `q` to `p` decimal places and render
sign, integer part, and exactly `p` fractional digits. -/
def formatFixed (p : ℕ) (q : ℚ) : String :=
  let scaled := roundHalfEven (q * (10 : ℚ) ^ p)
  let sign := if scaled < 0 then "-" else ""
  let m := scaled.natAbs
  sign ++ toString (m / 10 ^ p) ++ "." ++ padNat p (m % 10 ^ p)

/-- Multiplicity of the factor `p` in `n` (0 when `p < 2` or `n = 0`). -/
def multCount (p n : ℕ) : ℕ :=
  if h : 2 ≤ p ∧ 0 < n ∧ n % p = 0 then multCount p (n / p) + 1 else 0
decreasing_by exact Nat.div_lt_self h.2.1 (by omega)

/-- Python's default `str()` rendering of a float, under the
floats-as-rationals embedding: the shortest terminating decimal
expansion, with at least one fractional digit (`str(0.5) = "0.5"`,
`str(1.0) = "1.0"`).  Used for the unformatted `{h}` interpolation on
source line 73. -/
def pyStr (q : ℚ) : String :=
  let sign := if q < 0 then "-" else ""
  let e := max (max (multCount 2 q.den) (multCount 5 q.den)) 1
  let scaled := q.num.natAbs * 10 ^ e / q.den
  sign ++ toString (scaled / 10 ^ e) ++ "." ++ padNat e (scaled % 10 ^ e)

/-! ### The step table (`create_step_table`, source lines 53–84) -/

/-- One row of the step-by-step calculation table: the dictionary built
on source lines 62–70 (index 0) and 74–82 (later indices), with the
formatted string fields it actually stores. -/
structure StepRecord where
  step : ℕ
  xS : String
  yEulerS : String
  yAnalyticalS : String
  dydxS : String
  errorS : String
  nextY : String
deriving Repr, DecidableEq, Inhabited

/-- `create_step_table(x_values, y_euler, y_analytical, k, h)`: one record
per trajectory index, in index order.  Index 0 uses the derivative
`k * y_euler[0]` and the sentinel `"Initial value"`; index `i > 0` uses
the previous step's derivative `k * y_euler[i-1]` and narrates the update
formula `y_euler[i-1] + h × derivative` (with `h` interpolated via
`str`, not fixed-precision formatting). -/
def create_step_table (x_values y_euler y_analytical : List ℚ) (k h : ℚ) :
    List StepRecord :=
  (List.range x_values.length).map fun i =>
    if i = 0 then
      { step := i
        xS := formatFixed 4 (x_values.getD i 0)
        yEulerS := formatFixed 6 (y_euler.getD i 0)
        yAnalyticalS := formatFixed 6 (y_analytical.getD i 0)
        dydxS := formatFixed 6 (k * y_euler.getD i 0)
        errorS := formatFixed 6 |y_euler.getD i 0 - y_analytical.getD i 0|
        nextY := "Initial value" }
    else
      let derivative := k * y_euler.getD (i - 1) 0
      { step := i
        xS := formatFixed 4 (x_values.getD i 0)
        yEulerS := formatFixed 6 (y_euler.getD i 0)
        yAnalyticalS := formatFixed 6 (y_analytical.getD i 0)
        dydxS := formatFixed 6 derivative
        errorS := formatFixed 6 |y_euler.getD i 0 - y_analytical.getD i 0|
        nextY := formatFixed 6 (y_euler.getD (i - 1) 0) ++ " + " ++ pyStr h
          ++ " × " ++ formatFixed 6 derivative }

/-! ### The main page flow (validation and metrics, source lines 142–170) -/

/-- The final relative error metric (source lines 166–167):
`(final_error / abs(y_analytical[-1])) * 100 if y_analytical[-1] != 0 else 0`. -/
def finalRelativeError (finalEuler finalAnalytical : ℚ) : ℚ :=
  if finalAnalytical ≠ 0 then |finalEuler - finalAnalytical| / |finalAnalytical| * 100
  else 0

/-- Outcome of one run of the page: either a validation error message with
no computation, or the computed trajectory with the final-error metrics. -/
inductive MainOutcome where
  | invalidParameter (msg : String) : MainOutcome
  | computed (trajectory : List ℚ × List ℚ × List ℚ)
      (finalError relativeError : ℚ) : MainOutcome
deriving Repr, DecidableEq

/-- The computational skeleton of `main()` (source lines 142–170): reject
with an error message when `x_final <= x0` or `h <= 0` without invoking
the integrator; otherwise run `euler_method` and compute the final
absolute and relative errors from the last list entries. -/
def runMain (expF : ℚ → ℚ) (k x0 y0 x_final h : ℚ) : MainOutcome :=
  if x_final ≤ x0 then
    MainOutcome.invalidParameter "Final x value must be greater than initial x value"
  else if h ≤ 0 then
    MainOutcome.invalidParameter "Step size must be positive"
  else
    let t := euler_method expF k x0 y0 x_final h
    let finalError := |t.2.1.getLastD 0 - t.2.2.getLastD 0|
    MainOutcome.computed t finalError
      (finalRelativeError (t.2.1.getLastD 0) (t.2.2.getLastD 0))

/-! ### Claim theorems: the integrator -/

theorem pyInt_pos_eq_floor (q : ℚ) (hq : 0 ≤ q) : pyInt q = ⌊q⌋ := by
  simp [pyInt, hq]

theorem n_steps_valid (x0 x_final h : ℚ) (hh : 0 < h) (hx : x0 < x_final) :
    (n_steps x0 x_final h : ℤ) = ⌊(x_final - x0) / h⌋ := by
  have hq : 0 ≤ (x_final - x0) / h := le_of_lt (div_pos (by linarith) hh)
  have hfl : 0 ≤ ⌊(x_final - x0) / h⌋ := Int.floor_nonneg.mpr hq
  simp [n_steps, pyInt_pos_eq_floor _ hq, Int.toNat_of_nonneg hfl]

/-- C1: for every valid input (`h > 0`, `x_final > x0`) and every index
`i < n_steps`, the grid satisfies `x[i+1] = x[i] + h` and the Euler
sequence satisfies the forward-Euler recurrence
`yEuler[i+1] = yEuler[i] + h*k*yEuler[i]`. -/
theorem euler_method_recurrence (expF : ℚ → ℚ) (k x0 y0 x_final h : ℚ)
    (hh : 0 < h) (hx : x0 < x_final) (i : ℕ) (hi : i < n_steps x0 x_final h) :
    (euler_x expF k x0 y0 x_final h).getD (i + 1) 0 =
      (euler_x expF k x0 y0 x_final h).getD i 0 + h ∧
    (euler_yE expF k x0 y0 x_final h).getD (i + 1) 0 =
      (euler_yE expF k x0 y0 x_final h).getD i 0 +
        h * k * (euler_yE expF k x0 y0 x_final h).getD i 0 := by
  constructor
  · rw [euler_x_getD expF k x0 y0 x_final h (i + 1) hi,
      euler_x_getD expF k x0 y0 x_final h i (le_of_lt hi)]
    push_cast
    ring
  · rw [euler_yE_getD expF k x0 y0 x_final h (i + 1) hi,
      euler_yE_getD expF k x0 y0 x_final h i (le_of_lt hi)]
    ring

theorem euler_method_recurrence_witness :
    (0 : ℚ) < 1/2 ∧ (0 : ℚ) < 1 ∧ 0 < n_steps 0 1 (1/2) ∧
    ((euler_x (fun q => 1 + q) (1/10) 0 1 1 (1/2)).getD 1 0 =
      (euler_x (fun q => 1 + q) (1/10) 0 1 1 (1/2)).getD 0 0 + 1/2 ∧
    (euler_yE (fun q => 1 + q) (1/10) 0 1 1 (1/2)).getD 1 0 =
      (euler_yE (fun q => 1 + q) (1/10) 0 1 1 (1/2)).getD 0 0 +
        (1/2) * (1/10) * (euler_yE (fun q => 1 + q) (1/10) 0 1 1 (1/2)).getD 0 0) :=
  ⟨by norm_num, by norm_num, by norm_num [n_steps, pyInt],
    euler_method_recurrence (fun q => 1 + q) (1/10) 0 1 1 (1/2)
      (by norm_num) (by norm_num) 0 (by norm_num [n_steps, pyInt])⟩

/-- C2: for every valid input, the analytical value at every grid index
`i` (from 0 to `n_steps`) equals the closed form
`y0 * exp (k * (x[i] - x0))` evaluated at that grid point, given that the
exponential satisfies `exp 0 = 1`. -/
theorem euler_method_analytical_closed_form (expF : ℚ → ℚ)
    (k x0 y0 x_final h : ℚ) (hh : 0 < h) (hx : x0 < x_final)
    (hexp0 : expF 0 = 1) (i : ℕ) (hi : i ≤ n_steps x0 x_final h) :
    (euler_yA expF k x0 y0 x_final h).getD i 0 =
      y0 * expF (k * ((euler_x expF k x0 y0 x_final h).getD i 0 - x0)) := by
  match i with
  | 0 =>
    rw [euler_yA_getD_zero, euler_x_getD expF k x0 y0 x_final h 0 (Nat.zero_le _)]
    simp [hexp0]
  | j + 1 =>
    rw [euler_yA_getD expF k x0 y0 x_final h (j + 1) (Nat.succ_pos j) hi,
      euler_x_getD expF k x0 y0 x_final h (j + 1) hi]
    ring_nf

theorem euler_method_analytical_closed_form_witness :
    (0 : ℚ) < 1/2 ∧ (0 : ℚ) < 1 ∧ (fun q : ℚ => 1 + q) 0 = 1 ∧
    1 ≤ n_steps 0 1 (1/2) ∧
    (euler_yA (fun q => 1 + q) (1/10) 0 1 1 (1/2)).getD 1 0 =
      1 * (fun q : ℚ => 1 + q)
        ((1/10) * ((euler_x (fun q => 1 + q) (1/10) 0 1 1 (1/2)).getD 1 0 - 0)) :=
  ⟨by norm_num, by norm_num, by norm_num, by norm_num [n_steps, pyInt],
    euler_method_analytical_closed_form (fun q => 1 + q) (1/10) 0 1 1 (1/2)
      (by norm_num) (by norm_num) (by norm_num) 1 (by norm_num [n_steps, pyInt])⟩

/-- C3: for every valid input, all three lists of the trajectory have
exactly `⌊(x_final - x0) / h⌋ + 1` points — the step count coming from
truncating division, which coincides with the floor for positive
arguments — and the last grid point does not exceed `x_final` (it can
fall short of it). -/
theorem euler_method_length_floor (expF : ℚ → ℚ) (k x0 y0 x_final h : ℚ)
    (hh : 0 < h) (hx : x0 < x_final) :
    ((euler_x expF k x0 y0 x_final h).length : ℤ) = ⌊(x_final - x0) / h⌋ + 1 ∧
    ((euler_yE expF k x0 y0 x_final h).length : ℤ) = ⌊(x_final - x0) / h⌋ + 1 ∧
    ((euler_yA expF k x0 y0 x_final h).length : ℤ) = ⌊(x_final - x0) / h⌋ + 1 ∧
    (euler_x expF k x0 y0 x_final h).getD (n_steps x0 x_final h) 0 ≤ x_final := by
  have hn := n_steps_valid x0 x_final h hh hx
  refine ⟨?_, ?_, ?_, ?_⟩
  · rw [euler_x_length]; push_cast; omega
  · rw [euler_yE_length]; push_cast; omega
  · rw [euler_yA_length]; push_cast; omega
  · rw [euler_x_getD expF k x0 y0 x_final h _ le_rfl]
    have h1 : ((n_steps x0 x_final h : ℕ) : ℚ) ≤ (x_final - x0) / h := by
      have h2 : ((n_steps x0 x_final h : ℕ) : ℚ) = ((⌊(x_final - x0) / h⌋ : ℤ) : ℚ) := by
        rw [← hn]; push_cast; ring
      rw [h2]
      exact Int.floor_le _
    have h3 : ((n_steps x0 x_final h : ℕ) : ℚ) * h ≤ (x_final - x0) / h * h :=
      mul_le_mul_of_nonneg_right h1 (le_of_lt hh)
    rw [div_mul_cancel₀ _ (ne_of_gt hh)] at h3
    linarith

theorem euler_method_length_floor_witness :
    (0 : ℚ) < 1/3 ∧ (0 : ℚ) < 1 ∧
    (((euler_x (fun q => q) 2 0 5 1 (1/3)).length : ℤ) = ⌊((1 : ℚ) - 0) / (1/3)⌋ + 1 ∧
      (euler_x (fun q => q) 2 0 5 1 (1/3)).getD (n_steps 0 1 (1/3)) 0 ≤ 1) := by
  have h := euler_method_length_floor (fun q => q) 2 0 5 1 (1/3)
    (by norm_num) (by norm_num)
  exact ⟨by norm_num, by norm_num, h.1, h.2.2.2⟩

/-- C4: for every valid input, the trajectory starts at the initial
condition: `x[0] = x0`, `yEuler[0] = y0` and `yAnalytical[0] = y0`. -/
theorem euler_method_initial (expF : ℚ → ℚ) (k x0 y0 x_final h : ℚ)
    (hh : 0 < h) (hx : x0 < x_final) :
    (euler_x expF k x0 y0 x_final h).getD 0 0 = x0 ∧
    (euler_yE expF k x0 y0 x_final h).getD 0 0 = y0 ∧
    (euler_yA expF k x0 y0 x_final h).getD 0 0 = y0 := by
  refine ⟨?_, ?_, ?_⟩ <;> simp [euler_x, euler_yE, euler_yA, euler_method]

theorem euler_method_initial_witness :
    (0 : ℚ) < 1/2 ∧ (0 : ℚ) < 3 ∧
    ((euler_x (fun q => q) 1 2 7 3 (1/2)).getD 0 0 = 2 ∧
      (euler_yE (fun q => q) 1 2 7 3 (1/2)).getD 0 0 = 7 ∧
      (euler_yA (fun q => q) 1 2 7 3 (1/2)).getD 0 0 = 7) :=
  ⟨by norm_num, by norm_num,
    euler_method_initial (fun q => q) 1 2 7 3 (1/2) (by norm_num) (by norm_num)⟩

/-- C10: calling `euler_method` directly with `h > 0` but
`x_final ≤ x0` raises no error and returns the single-point trajectory
`([x0], [y0], [y0])`: the truncated step count is non-positive, so the
loop body never runs. -/
theorem euler_method_precondition_violated (expF : ℚ → ℚ)
    (k x0 y0 x_final h : ℚ) (hh : 0 < h) (hx : x_final ≤ x0) :
    euler_method expF k x0 y0 x_final h = ([x0], [y0], [y0]) := by
  have hq : (x_final - x0) / h ≤ 0 :=
    div_nonpos_of_nonpos_of_nonneg (by linarith) (le_of_lt hh)
  have hn : n_steps x0 x_final h = 0 := by
    rcases le_or_lt 0 ((x_final - x0) / h) with h0 | h0
    · have hq0 : (x_final - x0) / h = 0 := le_antisymm hq h0
      simp [n_steps, pyInt, hq0]
    · have : ⌈(x_final - x0) / h⌉ ≤ 0 :=
        Int.ceil_le.mpr (by exact_mod_cast le_of_lt h0)
      simp [n_steps, pyInt, not_le.mpr h0, Int.toNat_of_nonpos this]
  simp [euler_method, hn, eulerSteps]

theorem euler_method_precondition_violated_witness :
    (0 : ℚ) < 1/2 ∧ (5 : ℚ) ≤ 5 ∧
    euler_method (fun q => q) 1 5 3 5 (1/2) = ([5], [3], [3]) :=
  ⟨by norm_num, by norm_num,
    euler_method_precondition_violated (fun q => q) 1 5 3 5 (1/2)
      (by norm_num) (by norm_num)⟩

/-- C8: for every valid input with `k > 0` and `y0 > 0` (and a monotone
exponential with `exp 0 = 1`), both `yEuler` and `yAnalytical` are
non-decreasing from each grid index to the next. -/
theorem euler_method_monotone (expF : ℚ → ℚ) (k x0 y0 x_final h : ℚ)
    (hh : 0 < h) (hx : x0 < x_final) (hk : 0 < k) (hy : 0 < y0)
    (hexp : Monotone expF) (hexp0 : expF 0 = 1)
    (i : ℕ) (hi : i < n_steps x0 x_final h) :
    (euler_yE expF k x0 y0 x_final h).getD i 0 ≤
      (euler_yE expF k x0 y0 x_final h).getD (i + 1) 0 ∧
    (euler_yA expF k x0 y0 x_final h).getD i 0 ≤
      (euler_yA expF k x0 y0 x_final h).getD (i + 1) 0 := by
  have hb : 1 ≤ 1 + h * k := by nlinarith
  constructor
  · rw [euler_yE_getD expF k x0 y0 x_final h i (le_of_lt hi),
      euler_yE_getD expF k x0 y0 x_final h (i + 1) hi]
    exact mul_le_mul_of_nonneg_left (pow_le_pow_right₀ hb (Nat.le_succ i))
      (le_of_lt hy)
  · match i, hi with
    | 0, hi =>
      rw [euler_yA_getD_zero, euler_yA_getD expF k x0 y0 x_final h 1 one_pos hi]
      have h1 : (1 : ℚ) ≤ expF (k * ((1 : ℕ) * h)) := by
        rw [← hexp0]
        exact hexp (by push_cast; positivity)
      nlinarith
    | j + 1, hi =>
      rw [euler_yA_getD expF k x0 y0 x_final h (j + 1) (Nat.succ_pos j)
          (le_of_lt hi),
        euler_yA_getD expF k x0 y0 x_final h (j + 2) (Nat.succ_pos _) hi]
      have harg : k * ((j + 1 : ℕ) * h) ≤ k * ((j + 2 : ℕ) * h) := by
        push_cast
        nlinarith
      exact mul_le_mul_of_nonneg_left (hexp harg) (le_of_lt hy)

theorem euler_method_monotone_witness :
    (0 : ℚ) < 1/2 ∧ (0 : ℚ) < 1 ∧ (0 : ℚ) < 1/10 ∧ (0 : ℚ) < 1 ∧
    Monotone (fun q : ℚ => 1 + max q 0) ∧ (fun q : ℚ => 1 + max q 0) 0 = 1 ∧
    0 < n_steps 0 1 (1/2) ∧
    ((euler_yE (fun q => 1 + max q 0) (1/10) 0 1 1 (1/2)).getD 0 0 ≤
      (euler_yE (fun q => 1 + max q 0) (1/10) 0 1 1 (1/2)).getD 1 0 ∧
    (euler_yA (fun q => 1 + max q 0) (1/10) 0 1 1 (1/2)).getD 0 0 ≤
      (euler_yA (fun q => 1 + max q 0) (1/10) 0 1 1 (1/2)).getD 1 0) :=
  ⟨by norm_num, by norm_num, by norm_num, by norm_num,
    fun a b hab => add_le_add_left (max_le_max hab le_rfl) 1,
    by simp, by norm_num [n_steps, pyInt],
    euler_method_monotone (fun q => 1 + max q 0) (1/10) 0 1 1 (1/2)
      (by norm_num) (by norm_num) (by norm_num) (by norm_num)
      (fun a b hab => add_le_add_left (max_le_max hab le_rfl) 1)
      (by simp) 0 (by norm_num [n_steps, pyInt])⟩

/-! ### Claim theorems: the step table and the main flow -/

theorem map_range_getD {α : Type} (n : ℕ) (f : ℕ → α) (d : α) (i : ℕ)
    (hi : i < n) : ((List.range n).map f).getD i d = f i := by
  simp [List.getD_eq_getElem?_getD, List.getElem?_map, List.getElem?_range hi]

/-- C5: the step table has exactly one record per trajectory index, in
index order; row 0 carries the sentinel `"Initial value"` in its
"Next y" field; and for `i > 0` the derivative field of row `i` is the
previous step's derivative `k * yEuler[i-1]`. -/
theorem create_step_table_rows (xs ys yas : List ℚ) (k h : ℚ) :
    (create_step_table xs ys yas k h).length = xs.length ∧
    (∀ i, i < xs.length →
      ((create_step_table xs ys yas k h).getD i default).step = i) ∧
    (0 < xs.length →
      ((create_step_table xs ys yas k h).getD 0 default).nextY = "Initial value") ∧
    (∀ i, 0 < i → i < xs.length →
      ((create_step_table xs ys yas k h).getD i default).dydxS =
        formatFixed 6 (k * ys.getD (i - 1) 0)) := by
  refine ⟨by simp [create_step_table], ?_, ?_, ?_⟩
  · intro i hi
    simp only [create_step_table]
    rw [map_range_getD _ _ _ i hi]
    by_cases h0 : i = 0 <;> simp [h0]
  · intro h0
    simp only [create_step_table]
    rw [map_range_getD _ _ _ 0 h0]
    simp
  · intro i hi0 hi
    simp only [create_step_table]
    rw [map_range_getD _ _ _ i hi]
    simp [hi0.ne']

theorem create_step_table_rows_witness :
    (create_step_table [0, 1/2] [1, 21/20] [1, 11/10] (1/10) (1/2)).length =
      [(0 : ℚ), 1/2].length ∧
    0 < [(0 : ℚ), 1/2].length ∧
    ((create_step_table [0, 1/2] [1, 21/20] [1, 11/10] (1/10) (1/2)).getD 0
      default).nextY = "Initial value" ∧
    1 < [(0 : ℚ), 1/2].length ∧
    ((create_step_table [0, 1/2] [1, 21/20] [1, 11/10] (1/10) (1/2)).getD 1
      default).dydxS = formatFixed 6 ((1/10) * [(1 : ℚ), 21/20].getD 0 0) :=
  ⟨(create_step_table_rows [0, 1/2] [1, 21/20] [1, 11/10] (1/10) (1/2)).1,
    by simp,
    (create_step_table_rows [0, 1/2] [1, 21/20] [1, 11/10] (1/10) (1/2)).2.2.1
      (by simp),
    by simp,
    (create_step_table_rows [0, 1/2] [1, 21/20] [1, 11/10] (1/10) (1/2)).2.2.2
      1 (by norm_num) (by simp)⟩

/-- Written from the spec's words for C9, to be compared with the source
behaviour: the "Next y" text with every numeric quantity in it — the
previous y value, the step size `h`, and the derivative — rendered at the
fixed 6-decimal precision. -/
def nextYSpecFixed (yPrev h deriv : ℚ) : String :=
  formatFixed 6 yPrev ++ " + " ++ formatFixed 6 h ++ " × " ++ formatFixed 6 deriv

theorem formatFixed_one : formatFixed 6 (1 : ℚ) = "1.000000" := by
  have h1 : roundHalfEven ((1 : ℚ) * (10 : ℚ) ^ (6 : ℕ)) = 1000000 := by
    norm_num [roundHalfEven]
  simp only [formatFixed, h1]
  rfl

theorem formatFixed_tenth : formatFixed 6 ((1 : ℚ)/10) = "0.100000" := by
  have h1 : roundHalfEven ((1 : ℚ)/10 * (10 : ℚ) ^ (6 : ℕ)) = 100000 := by
    norm_num [roundHalfEven]
  simp only [formatFixed, h1]
  rfl

theorem formatFixed_half : formatFixed 6 ((1 : ℚ)/2) = "0.500000" := by
  have h1 : roundHalfEven ((1 : ℚ)/2 * (10 : ℚ) ^ (6 : ℕ)) = 500000 := by
    norm_num [roundHalfEven]
  simp only [formatFixed, h1]
  rfl

theorem pyStr_half : pyStr ((1 : ℚ)/2) = "0.5" := by
  have hden : ((1 : ℚ)/2).den = 2 := by norm_num
  have hnum : ((1 : ℚ)/2).num = 1 := by norm_num
  have hneg : ¬ ((1 : ℚ)/2 < 0) := by norm_num
  have h2 : multCount 2 2 = 1 := by
    unfold multCount
    norm_num
    unfold multCount
    norm_num
  have h5 : multCount 5 2 = 0 := by
    unfold multCount
    norm_num
  simp only [pyStr, hden, hnum, h2, h5, if_neg hneg]
  rfl

/-- C9 counterexample: in the step table for the trajectory
`x = [0, 1/2]`, `yEuler = [1, 21/20]`, `yAnalytical = [1, 11/10]` with
`k = 1/10`, `h = 1/2`, row 1's "Next y" text renders the step size as
`"0.5"` (Python's default `str`), not at the fixed 6-decimal precision
the claim asserts for every numeric quantity in that text. -/
theorem create_step_table_h_unformatted :
    ((create_step_table [0, 1/2] [1, 21/20] [1, 11/10] (1/10) (1/2)).getD 1
      default).nextY ≠ nextYSpecFixed 1 ((1 : ℚ)/2) ((1 : ℚ)/10) := by
  have htab : ((create_step_table [0, 1/2] [1, 21/20] [1, 11/10] (1/10) (1/2)).getD 1
      default).nextY =
      formatFixed 6 1 ++ " + " ++ pyStr ((1 : ℚ)/2) ++ " × " ++
        formatFixed 6 ((1 : ℚ)/10) := by
    simp only [create_step_table]
    rw [map_range_getD _ _ _ 1 (by simp)]
    norm_num
  rw [htab, nextYSpecFixed, formatFixed_one, formatFixed_tenth, formatFixed_half,
    pyStr_half]
  decide

/-- C9 amended: every numeric dictionary field of every step-table row is
rendered at its fixed precision — `x` at 4 decimal places, both y values
and the error at 6 — and in the "Next y" text the previous y value and
the derivative are rendered at 6 decimal places, while the step size `h`
is interpolated with Python's default `str` rendering, not at a fixed
precision. -/
theorem create_step_table_formatting (xs ys yas : List ℚ) (k h : ℚ)
    (i : ℕ) (hi : i < xs.length) :
    ((create_step_table xs ys yas k h).getD i default).xS =
      formatFixed 4 (xs.getD i 0) ∧
    ((create_step_table xs ys yas k h).getD i default).yEulerS =
      formatFixed 6 (ys.getD i 0) ∧
    ((create_step_table xs ys yas k h).getD i default).yAnalyticalS =
      formatFixed 6 (yas.getD i 0) ∧
    ((create_step_table xs ys yas k h).getD i default).errorS =
      formatFixed 6 |ys.getD i 0 - yas.getD i 0| ∧
    (0 < i →
      ((create_step_table xs ys yas k h).getD i default).nextY =
        formatFixed 6 (ys.getD (i - 1) 0) ++ " + " ++ pyStr h ++ " × " ++
          formatFixed 6 (k * ys.getD (i - 1) 0)) := by
  simp only [create_step_table]
  rw [map_range_getD _ _ _ i hi]
  by_cases h0 : i = 0
  · subst h0
    simp
  · simp [h0, Nat.pos_of_ne_zero h0]

theorem create_step_table_formatting_witness :
    1 < [(0 : ℚ), 1/2].length ∧
    ((create_step_table [0, 1/2] [1, 21/20] [1, 11/10] (1/10) (1/2)).getD 1
      default).xS = formatFixed 4 ([(0 : ℚ), 1/2].getD 1 0) ∧
    ((create_step_table [0, 1/2] [1, 21/20] [1, 11/10] (1/10) (1/2)).getD 1
      default).nextY =
      formatFixed 6 ([(1 : ℚ), 21/20].getD 0 0) ++ " + " ++ pyStr (1/2) ++ " × " ++
        formatFixed 6 ((1/10) * [(1 : ℚ), 21/20].getD 0 0) := by
  have h := create_step_table_formatting [0, 1/2] [1, 21/20] [1, 11/10]
    (1/10) (1/2) 1 (by simp)
  exact ⟨by simp, h.1, h.2.2.2.2 (by norm_num)⟩

/-- C6: when `x_final <= x0` or `h <= 0`, the page signals the single
`InvalidParameter` error class with a message naming the violated
constraint, and the integrator is never invoked (the outcome carries no
trajectory). -/
theorem runMain_invalid (expF : ℚ → ℚ) (k x0 y0 x_final h : ℚ)
    (hinv : x_final ≤ x0 ∨ h ≤ 0) :
    runMain expF k x0 y0 x_final h =
      MainOutcome.invalidParameter
        (if x_final ≤ x0 then "Final x value must be greater than initial x value"
         else "Step size must be positive") := by
  rcases hinv with h1 | h1
  · simp [runMain, h1]
  · by_cases h2 : x_final ≤ x0
    · simp [runMain, h2]
    · simp [runMain, h2, h1]

theorem runMain_invalid_witness :
    ((5 : ℚ) ≤ 5 ∨ (1 : ℚ) ≤ 0) ∧
    runMain (fun q => q) (1/10) 5 1 5 1 =
      MainOutcome.invalidParameter
        "Final x value must be greater than initial x value" := by
  refine ⟨Or.inl le_rfl, ?_⟩
  have h := runMain_invalid (fun q => q) (1/10) 5 1 5 1 (Or.inl le_rfl)
  rwa [if_pos (le_refl (5 : ℚ))] at h

/-- C7: for every valid input, the final relative-error metric equals
`|finalError| / |finalAnalytical| * 100` when the final analytical value
is nonzero and exactly 0 when it is zero, and the run always produces a
computed outcome (no division error propagates). -/
theorem runMain_relative_error (expF : ℚ → ℚ) (k x0 y0 x_final h : ℚ)
    (hx : x0 < x_final) (hh : 0 < h) :
    runMain expF k x0 y0 x_final h =
      MainOutcome.computed (euler_method expF k x0 y0 x_final h)
        |(euler_method expF k x0 y0 x_final h).2.1.getLastD 0 -
          (euler_method expF k x0 y0 x_final h).2.2.getLastD 0|
        (if (euler_method expF k x0 y0 x_final h).2.2.getLastD 0 = 0 then 0
         else
           |(euler_method expF k x0 y0 x_final h).2.1.getLastD 0 -
             (euler_method expF k x0 y0 x_final h).2.2.getLastD 0| /
             |(euler_method expF k x0 y0 x_final h).2.2.getLastD 0| * 100) := by
  have h1 : ¬ (x_final ≤ x0) := not_le.mpr hx
  have h2 : ¬ (h ≤ 0) := not_le.mpr hh
  simp only [runMain, if_neg h1, if_neg h2, finalRelativeError]
  by_cases h3 : (euler_method expF k x0 y0 x_final h).2.2.getLastD 0 = 0 <;>
    simp [h3]

theorem runMain_relative_error_witness :
    (0 : ℚ) < 1 ∧ (0 : ℚ) < 1 ∧
    runMain (fun q => q) 1 0 1 1 1 =
      MainOutcome.computed (euler_method (fun q => q) 1 0 1 1 1)
        |(euler_method (fun q => q) 1 0 1 1 1).2.1.getLastD 0 -
          (euler_method (fun q => q) 1 0 1 1 1).2.2.getLastD 0|
        (if (euler_method (fun q => q) 1 0 1 1 1).2.2.getLastD 0 = 0 then 0
         else
           |(euler_method (fun q => q) 1 0 1 1 1).2.1.getLastD 0 -
             (euler_method (fun q => q) 1 0 1 1 1).2.2.getLastD 0| /
             |(euler_method (fun q => q) 1 0 1 1 1).2.2.getLastD 0| * 100) :=
  ⟨by norm_num, by norm_num,
    runMain_relative_error (fun q => q) 1 0 1 1 1 (by norm_num) (by norm_num)⟩
